import Mathlib

/-!
Verification of the connection-registry core of the Chat repository
(`src/socket/upgrade.rs` and its collaborators), shallowly embedded in Lean.

Hash maps (`std::collections::HashMap`) are modelled as association lists
with key-unique insertion (`minsert` conses the new pair after erasing the
key), `Vec` as `List`, `usize` as `Nat` with an explicit wrap at `2 ^ 64`
where overflow matters, and panics as `Option.none` results.
-/

namespace Chat

/-- `db::GroupID = i32` (src/database/group.rs). -/
abbrev GroupID := Int

/-- `db::UserID` (opaque integer key owned by storage). -/
abbrev UserID := Int

/-- `ConnID = usize` (src/socket/upgrade.rs). -/
abbrev ConnID := Nat

/-- A channel row as fetched by `db::group_channels`. -/
structure Channel where
  channel_id : Int
  name : String
deriving DecidableEq, Repr

/-- `crate::error::Error`, kept opaque: only its propagation matters here. -/
inductive Error where
  | storage (code : Nat)
deriving DecidableEq, Repr

/-- The sending half of a connection's unbounded outbound queue
(`mpsc::UnboundedSender`), modelled as an opaque handle. -/
abbrev Sender := Nat

/-- Outbound frames: the registry operations only ever construct close
directives (`Message::close_with`). -/
inductive Message where
  | close_with (code : Nat) (reason : String)
deriving DecidableEq, Repr

/-- Presence notifications observable from the registry operations. -/
inductive Event where
  | online (u : UserID)
  | offline (u : UserID)
deriving DecidableEq, Repr

/-! ### Association-list model of `HashMap` -/

/-- `HashMap` lookup: first binding of the key, if any. -/
def mlookup {κ ν : Type} [DecidableEq κ] : List (κ × ν) → κ → Option ν
  | [], _ => none
  | (k', v) :: rest, k => if k' = k then some v else mlookup rest k

/-- `HashMap::remove`: drop every binding of the key. -/
def merase {κ ν : Type} [DecidableEq κ] (m : List (κ × ν)) (k : κ) : List (κ × ν) :=
  m.filter (fun p => decide (p.1 ≠ k))

/-- `HashMap::insert`: bind the key, replacing any previous binding. -/
def minsert {κ ν : Type} [DecidableEq κ] (m : List (κ × ν)) (k : κ) (v : ν) : List (κ × ν) :=
  (k, v) :: merase m k

/-! ### The registry data model (src/socket/upgrade.rs) -/

/-- `struct Group` (src/socket/upgrade.rs, lines 23-27). -/
structure Group where
  channels : List Channel
  connections : List (ConnID × Sender)
  online_users : List (UserID × List ConnID)
deriving DecidableEq, Repr

/-- `struct ConnectionContext` (src/socket/upgrade.rs, lines 17-21). -/
structure ConnectionContext where
  user_id : UserID
  group_id : GroupID
  conn_id : ConnID
deriving DecidableEq, Repr

/-- `type GroupMap = HashMap<db::GroupID, Group>`. -/
abbrev GroupMap := List (GroupID × Group)

/-- Modelled from the spec: `Group::send_user_online` is called from
`Group::insert_connection` in src/socket/upgrade.rs but its body is not among
the provided sources; per the spec it emits exactly one "user online"
notification for the given user. -/
def Group.send_user_online (_g : Group) (u : UserID) : List Event :=
  [Event.online u]

/-- Modelled from the spec: `Group::send_user_offline` is called from
`Group::remove_connection` in src/socket/upgrade.rs but its body is not among
the provided sources; per the spec it emits exactly one "user offline"
notification for the given user. -/
def Group.send_user_offline (_g : Group) (u : UserID) : List Event :=
  [Event.offline u]

/-- `Group::new` (src/socket/upgrade.rs, lines 34-43).  The storage fetch
`db::group_channels` is an external query; its result is a parameter. -/
def Group.new (conn_ctx : ConnectionContext) (channelsResult : Except Error (List Channel))
    (ch_tx : Sender) : Except Error Group :=
  match channelsResult with
  | .error e => .error e
  | .ok channels =>
      .ok { channels := channels,
            connections := minsert [] conn_ctx.conn_id ch_tx,
            online_users := minsert [] conn_ctx.user_id [conn_ctx.conn_id] }

/-- `Group::insert_connection` (src/socket/upgrade.rs, lines 46-53), returning
the updated group together with the emitted presence events. -/
def Group.insert_connection (g : Group) (conn_ctx : ConnectionContext) (ch_tx : Sender) :
    Group × List Event :=
  let conn_ids := (mlookup g.online_users conn_ctx.user_id).getD [] ++ [conn_ctx.conn_id]
  let events := if conn_ids.length = 1 then g.send_user_online conn_ctx.user_id else []
  ({ g with
      online_users := minsert g.online_users conn_ctx.user_id conn_ids
      connections := minsert g.connections conn_ctx.conn_id ch_tx },
   events)

/-- `Iterator::position`: index of the first element equal to `c`, if any. -/
def positionOf {α : Type} [DecidableEq α] (l : List α) (c : α) : Option Nat :=
  match l with
  | [] => none
  | x :: xs => if x = c then some 0 else (positionOf xs c).map (· + 1)

/-- `Vec::swap_remove(i)`: replace position `i` by the last element and drop
the last position.  Only ever applied with `i` in bounds. -/
def swapRemove {α : Type} (l : List α) (i : Nat) : List α :=
  match l.getLast? with
  | none => l
  | some last => (l.set i last).dropLast

/-- `Group::remove_connection` (src/socket/upgrade.rs, lines 58-77).  The two
panicking branches (vacant user entry, `position(..).unwrap()` on a missing
conn id) are modelled as `none`; otherwise returns the updated group, the
"group became empty" flag and the emitted presence events. -/
def Group.remove_connection (g : Group) (conn_ctx : ConnectionContext) :
    Option (Group × Bool × List Event) :=
  let connections := merase g.connections conn_ctx.conn_id
  if connections.isEmpty then
    some ({ g with connections := connections }, true, [])
  else
    match mlookup g.online_users conn_ctx.user_id with
    | none => none
    | some conn_ids =>
        if conn_ids.length = 1 then
          some ({ g with
                    connections := connections
                    online_users := merase g.online_users conn_ctx.user_id },
                false, g.send_user_offline conn_ctx.user_id)
        else
          match positionOf conn_ids conn_ctx.conn_id with
          | none => none
          | some index =>
              some ({ g with
                        connections := connections
                        online_users := minsert g.online_users conn_ctx.user_id
                          (swapRemove conn_ids index) },
                    false, [])

/-! ### Context-level operations on the group map -/

namespace Context

/-- `Context::insert_connection` (src/socket/upgrade.rs, lines 96-108): the
`Entry::Occupied` branch delegates to `Group::insert_connection`, the
`Entry::Vacant` branch builds the group via `Group::new` (whose storage fetch
result is the `channelsResult` parameter). -/
def insert_connection (m : GroupMap) (conn_ctx : ConnectionContext) (ch_tx : Sender)
    (channelsResult : Except Error (List Channel)) : Except Error (GroupMap × List Event) :=
  match mlookup m conn_ctx.group_id with
  | some g =>
      let r := g.insert_connection conn_ctx ch_tx
      .ok (minsert m conn_ctx.group_id r.1, r.2)
  | none =>
      match Group.new conn_ctx channelsResult ch_tx with
      | .error e => .error e
      | .ok g => .ok (minsert m conn_ctx.group_id g, [])

/-- `Context::remove_connection` (src/socket/upgrade.rs, lines 112-121): the
vacant-group branch panics (`none`); if the group reports emptiness its key is
deleted from the map. -/
def remove_connection (m : GroupMap) (conn_ctx : ConnectionContext) :
    Option (GroupMap × List Event) :=
  match mlookup m conn_ctx.group_id with
  | none => none
  | some g =>
      match g.remove_connection conn_ctx with
      | none => none
      | some (g', empty, events) =>
          if empty then some (merase m conn_ctx.group_id, events)
          else some (minsert m conn_ctx.group_id g', events)

/-- The group map seen by the lifecycle driver after a connect attempt
(`Context::connected`, src/socket/upgrade.rs, lines 175-180): on a storage
error nothing was registered, the map keeps its old value and the error is
reported. -/
def connect (m : GroupMap) (conn_ctx : ConnectionContext) (ch_tx : Sender)
    (channelsResult : Except Error (List Channel)) : GroupMap × List Event × Option Error :=
  match insert_connection m conn_ctx ch_tx channelsResult with
  | .ok (m', events) => (m', events, none)
  | .error e => (m, [], some e)

end Context

/-! ### Outbound queues and `Context::kick` -/

/-- The contents of every connection's outbound queue, indexed by the queue's
sending handle.  Queues whose receiving task has terminated are exactly those
with `live` false below. -/
def QueueState := Sender → List Message

/-- `UnboundedSender::send`: appends to the queue when the receiver is still
alive, otherwise fails; `Context::kick` ignores the failure
(src/socket/upgrade.rs, lines 211-213), so a dead queue is left unchanged. -/
def sendMsg (live : Sender → Bool) (q : QueueState) (s : Sender) (msg : Message) : QueueState :=
  if live s then
    fun s' => if s' = s then q s' ++ [msg] else q s'
  else q

/-- One iteration of the outer loop of `Context::kick` for a single group:
if the user has an entry in `online_users`, sends the close directive to every
one of that user's connection queues.  The indexing `group.connections[conn_id]`
panics when the conn id is not a key, modelled as `none`. -/
def kickGroup (g : Group) (user_id : UserID) (live : Sender → Bool) (q : QueueState) :
    Option QueueState :=
  match mlookup g.online_users user_id with
  | none => some q
  | some conn_ids =>
      conn_ids.foldlM (fun acc conn_id =>
        match mlookup g.connections conn_id with
        | none => none
        | some s => some (sendMsg live acc s (Message.close_with 4000 "kick"))) q

/-- `Context::kick` (src/socket/upgrade.rs, lines 203-218): iterate over every
group under shared (read) access and enqueue the close directive on the kicked
user's queues. -/
def Context.kick (m : GroupMap) (user_id : UserID) (live : Sender → Bool) (q : QueueState) :
    Option QueueState :=
  m.foldlM (fun acc p => kickGroup p.2 user_id live acc) q

/-- The whole mutable state touched by `Context::kick`: the group map behind
the RwLock and the queue contents. -/
structure CtxState where
  groups : GroupMap
  queues : QueueState

/-- `Context::kick` at the level of the whole state: the map is accessed under
a read guard, only queues change. -/
def Context.kickCtx (st : CtxState) (user_id : UserID) (live : Sender → Bool) :
    Option CtxState :=
  match Context.kick st.groups user_id live st.queues with
  | none => none
  | some q => some { st with queues := q }

/-- A queue handle is a kick target of a group for a user when it belongs to
one of the connections listed under that user in the group's `online_users`. -/
def GroupTarget (g : Group) (u : UserID) (s : Sender) : Prop :=
  ∃ l c, mlookup g.online_users u = some l ∧ c ∈ l ∧ mlookup g.connections c = some s

/-- A queue handle is a kick target of the whole map for a user when it is a
kick target of some group present in the map. -/
def KickTarget (m : GroupMap) (u : UserID) (s : Sender) : Prop :=
  ∃ gid g, mlookup m gid = some g ∧ GroupTarget g u s

/-! ### ConnectionID allocation and `Context::upgrade` -/

/-- `usize` wraps at `2 ^ 64` (64-bit target). -/
def USIZE : Nat := 2 ^ 64

/-- `NEXT_CONNECTION_ID.fetch_add(1, Ordering::Relaxed)`: returns the current
counter and stores the wrapped successor. -/
def fetchAdd1 (c : Nat) : Nat × Nat :=
  (c, (c + 1) % USIZE)

/-- Counter value before the k-th allocation (0-indexed); the static
initializer is `AtomicConnID::new(1)` (src/socket/upgrade.rs, line 13). -/
def allocCounter : Nat → Nat
  | 0 => 1
  | k + 1 => (fetchAdd1 (allocCounter k)).2

/-- Value returned by the k-th call (0-indexed) to the allocator. -/
def allocValue (k : Nat) : Nat :=
  (fetchAdd1 (allocCounter k)).1

/-- Result of `Context::upgrade` as observed by the transport-upgrade caller. -/
inductive UpgradeResponse where
  | rejection (e : Error)
  | status (code : Nat)
  | upgraded (conn_id : ConnID)
deriving DecidableEq, Repr

/-- The state that `Context::upgrade` and the driver it spawns may touch:
the ConnectionID counter and the group map. -/
structure UpgradeState where
  next_conn_id : Nat
  groups : GroupMap
deriving Repr

/-- `Context::upgrade` (src/socket/upgrade.rs, lines 123-151) followed by the
registration step of `Context::connected`: session resolution and the
membership check are external queries passed as results; a db error propagates
as a rejection via the question-mark operator, a missing user or a
non-member yields status 500 (INTERNAL_SERVER_ERROR) before any state is
touched; only on success is a ConnectionID allocated and the connection
registered. -/
def Context.upgrade (group_id : GroupID) (sessionRes : Except Error (Option UserID))
    (memberOf : UserID → Except Error Bool) (st : UpgradeState) (ch_tx : Sender)
    (channelsResult : Except Error (List Channel)) : UpgradeResponse × UpgradeState :=
  match sessionRes with
  | .error e => (.rejection e, st)
  | .ok none => (.status 500, st)
  | .ok (some user_id) =>
      match memberOf user_id with
      | .error e => (.rejection e, st)
      | .ok false => (.status 500, st)
      | .ok true =>
          let r := fetchAdd1 st.next_conn_id
          let conn_ctx : ConnectionContext :=
            { user_id := user_id, group_id := group_id, conn_id := r.1 }
          let c := Context.connect st.groups conn_ctx ch_tx channelsResult
          (.upgraded r.1, { next_conn_id := r.2, groups := c.1 })

/-! ### Scenario drivers: a user's connections to one fixed group -/

/-- A sequence of connect calls by one user to one group, each carrying its
fresh ConnectionID and queue handle; delegates every step to
`Context.insert_connection` and concatenates the emitted events.  A storage
error aborts the run. -/
def runConnects (m : GroupMap) (u : UserID) (gid : GroupID)
    (channelsResult : Except Error (List Channel)) :
    List (ConnID × Sender) → Except Error (GroupMap × List Event)
  | [] => .ok (m, [])
  | (c, tx) :: rest =>
      match Context.insert_connection m ⟨u, gid, c⟩ tx channelsResult with
      | .error e => .error e
      | .ok (m', events) =>
          match runConnects m' u gid channelsResult rest with
          | .error e => .error e
          | .ok (m'', events') => .ok (m'', events ++ events')

/-- A sequence of disconnect calls by the same user from the same group, in
the given order; delegates every step to `Context.remove_connection` and
concatenates the emitted events.  A panicking step aborts the run. -/
def runDisconnects (m : GroupMap) (u : UserID) (gid : GroupID) :
    List ConnID → Option (GroupMap × List Event)
  | [] => some (m, [])
  | c :: rest =>
      match Context.remove_connection m ⟨u, gid, c⟩ with
      | none => none
      | some (m', events) =>
          match runDisconnects m' u gid rest with
          | none => none
          | some (m'', events') => some (m'', events ++ events')

/-! ### The registry invariant -/

/-- The per-group part of the registry invariant: `connections` is non-empty,
and every `online_users` entry is a non-empty list of keys of `connections`. -/
def Group.RInv (g : Group) : Prop :=
  g.connections ≠ [] ∧
  ∀ u l, mlookup g.online_users u = some l →
    l ≠ [] ∧ ∀ c ∈ l, (mlookup g.connections c).isSome = true

/-- The registry invariant over the whole group map. -/
def MapRInv (m : GroupMap) : Prop :=
  ∀ gid g, mlookup m gid = some g → g.RInv

/-- Executable check of `Group.RInv`. -/
def Group.rinvB (g : Group) : Bool :=
  !g.connections.isEmpty &&
    g.online_users.all (fun p =>
      !p.2.isEmpty && p.2.all (fun c => (mlookup g.connections c).isSome))

/-- Executable check of `MapRInv`. -/
def mapRInvB (m : GroupMap) : Bool :=
  m.all (fun p => p.2.rinvB)

/-- A connection is registered exactly once for its user: no other user's
entry lists it, and its own user's entry lists it at most once.  This is the
bookkeeping discipline the lifecycle driver guarantees for every live
connection. -/
def Group.registeredOnce (g : Group) (u : UserID) (c : ConnID) : Prop :=
  ∀ u' l, mlookup g.online_users u' = some l → (c ∈ l → u' = u) ∧ l.count c ≤ 1

/-- Executable check of `Group.registeredOnce`. -/
def Group.registeredOnceB (g : Group) (u : UserID) (c : ConnID) : Bool :=
  g.online_users.all (fun p => (!p.2.contains c || decide (p.1 = u)) && p.2.count c ≤ 1)

/-- Group ids are bound at most once in the map (true of every map the
registry builds, since insertion erases the old binding). -/
def WFMap (m : GroupMap) : Prop :=
  (m.map Prod.fst).Nodup

/-! ### Lemmas about the association-list map model -/

theorem mlookup_minsert_self {κ ν : Type} [DecidableEq κ] (m : List (κ × ν)) (k : κ) (v : ν) :
    mlookup (minsert m k v) k = some v := by
  simp [minsert, mlookup]

theorem mlookup_merase {κ ν : Type} [DecidableEq κ] (m : List (κ × ν)) (k k' : κ) :
    mlookup (merase m k) k' = if k = k' then none else mlookup m k' := by
  induction m with
  | nil => simp [merase, mlookup]
  | cons p rest ih =>
    obtain ⟨k₀, v₀⟩ := p
    by_cases h₀ : k₀ = k
    · subst h₀
      by_cases h₁ : k₀ = k'
      · subst h₁; simpa [merase, mlookup] using ih
      · simpa [merase, mlookup, h₁] using ih
    · by_cases h₁ : k₀ = k'
      · subst h₁
        have hkk : ¬ k = k₀ := fun h => h₀ h.symm
        simp [merase, mlookup, h₀, hkk]
      · simpa [merase, mlookup, h₀, h₁] using ih

theorem mlookup_merase_self {κ ν : Type} [DecidableEq κ] (m : List (κ × ν)) (k : κ) :
    mlookup (merase m k) k = none := by
  simp [mlookup_merase]

theorem mlookup_merase_ne {κ ν : Type} [DecidableEq κ] (m : List (κ × ν)) {k k' : κ}
    (h : k ≠ k') : mlookup (merase m k) k' = mlookup m k' := by
  simp [mlookup_merase, h]

theorem mlookup_minsert_ne {κ ν : Type} [DecidableEq κ] (m : List (κ × ν)) {k k' : κ} (v : ν)
    (h : k ≠ k') : mlookup (minsert m k v) k' = mlookup m k' := by
  simp [minsert, mlookup, h, mlookup_merase_ne]

theorem mlookup_ne_nil {κ ν : Type} [DecidableEq κ] {m : List (κ × ν)} {k : κ} {v : ν}
    (h : mlookup m k = some v) : m ≠ [] := by
  intro hnil; subst hnil; simp [mlookup] at h

theorem mlookup_isEmpty_false {κ ν : Type} [DecidableEq κ] {m : List (κ × ν)} {k : κ}
    (h : (mlookup m k).isSome) : m.isEmpty = false := by
  cases m with
  | nil => simp [mlookup] at h
  | cons p rest => simp [List.isEmpty]

theorem mlookup_mem {κ ν : Type} [DecidableEq κ] {m : List (κ × ν)} {k : κ} {v : ν}
    (h : mlookup m k = some v) : (k, v) ∈ m := by
  induction m with
  | nil => simp [mlookup] at h
  | cons p rest ih =>
    obtain ⟨k₀, v₀⟩ := p
    by_cases hk : k₀ = k
    · subst hk
      simp [mlookup] at h
      simp [h]
    · simp [mlookup, hk] at h
      exact List.mem_cons_of_mem _ (ih h)

theorem Group.rinv_of_b {g : Group} (h : g.rinvB = true) : g.RInv := by
  unfold Group.rinvB at h
  simp [List.all_eq_true] at h
  obtain ⟨h₁, h₂⟩ := h
  refine ⟨by simpa [List.isEmpty_eq_false] using h₁, ?_⟩
  intro u l hl
  have hm := mlookup_mem hl
  obtain ⟨hne, hall⟩ := h₂ u l hm
  exact ⟨by simpa [List.isEmpty_eq_false] using hne, hall⟩

theorem mapRInv_of_b {m : GroupMap} (h : mapRInvB m = true) : MapRInv m := by
  unfold mapRInvB at h
  simp [List.all_eq_true] at h
  intro gid g hg
  exact Group.rinv_of_b (h gid g (mlookup_mem hg))

theorem Group.registeredOnce_of_b {g : Group} {u : UserID} {c : ConnID}
    (h : g.registeredOnceB u c = true) : g.registeredOnce u c := by
  unfold Group.registeredOnceB at h
  simp [List.all_eq_true] at h
  intro u' l hl
  obtain ⟨h₁, h₂⟩ := h u' l (mlookup_mem hl)
  refine ⟨fun hc => ?_, h₂⟩
  rcases h₁ with h₁ | h₁
  · exact absurd hc h₁
  · exact h₁

/-! ### List lemmas for `positionOf` and `swapRemove` -/

theorem positionOf_isSome {α : Type} [DecidableEq α] {l : List α} {c : α} (h : c ∈ l) :
    (positionOf l c).isSome = true := by
  induction l with
  | nil => simp at h
  | cons x xs ih =>
    by_cases hx : x = c
    · simp [positionOf, hx]
    · have hc : c ∈ xs := by
        rcases List.mem_cons.mp h with h' | h'
        · exact absurd h'.symm hx
        · exact h'
      have := ih hc
      rcases Option.isSome_iff_exists.mp this with ⟨i, hi⟩
      simp [positionOf, hx, hi]

theorem positionOf_getElem {α : Type} [DecidableEq α] {l : List α} {c : α} {i : Nat}
    (h : positionOf l c = some i) : l[i]? = some c := by
  induction l generalizing i with
  | nil => simp [positionOf] at h
  | cons x xs ih =>
    by_cases hx : x = c
    · simp [positionOf, hx] at h
      subst h
      simp [hx]
    · simp [positionOf, hx] at h
      obtain ⟨j, hj, hji⟩ := h
      subst hji
      simpa using ih hj

theorem positionOf_lt_length {α : Type} [DecidableEq α] {l : List α} {c : α} {i : Nat}
    (h : positionOf l c = some i) : i < l.length :=
  (List.getElem?_eq_some.mp (positionOf_getElem h)).1

/-- Removing the element at a position holding `c` is, up to permutation,
removing one occurrence of `c`. -/
theorem perm_cons_eraseIdx {α : Type} {l : List α} {c : α} {i : Nat}
    (h : l[i]? = some c) : l.Perm (c :: l.eraseIdx i) := by
  induction l generalizing i with
  | nil => simp at h
  | cons x xs ih =>
    cases i with
    | zero =>
      simp at h
      subst h
      simp [List.eraseIdx]
    | succ i =>
      simp at h
      have hperm := ih h
      have h₁ : (x :: xs).Perm (x :: c :: xs.eraseIdx i) := hperm.cons x
      have h₂ : (x :: c :: xs.eraseIdx i).Perm (c :: x :: xs.eraseIdx i) :=
        List.Perm.swap c x _
      have h₃ : (x :: xs).eraseIdx (i + 1) = x :: xs.eraseIdx i := rfl
      rw [h₃]
      exact h₁.trans h₂

theorem swapRemove_eq {α : Type} {l : List α} {a : α} (h : l.getLast? = some a) (i : Nat) :
    swapRemove l i = (l.set i a).dropLast := by
  unfold swapRemove
  rw [h]

theorem swapRemove_perm_eraseIdx {α : Type} {l : List α} {i : Nat} (h : i < l.length) :
    (swapRemove l i).Perm (l.eraseIdx i) := by
  induction l generalizing i with
  | nil => simp at h
  | cons x xs ih =>
    cases hxs : xs with
    | nil =>
      subst hxs
      have hi : i = 0 := by
        simp at h
        omega
      subst hi
      simp [swapRemove_eq (show ([x] : List α).getLast? = some x from rfl) 0, List.eraseIdx]
    | cons y ys =>
      subst hxs
      have hne : (y :: ys : List α) ≠ [] := by simp
      have hlast : (x :: y :: ys).getLast? = some ((y :: ys).getLast hne) := by
        rw [List.getLast?_cons_cons, List.getLast?_eq_getLast]
      cases i with
      | zero =>
        rw [swapRemove_eq hlast 0]
        have hset : (x :: y :: ys).set 0 ((y :: ys).getLast hne) =
            (y :: ys).getLast hne :: y :: ys := rfl
        rw [hset, List.dropLast_cons_of_ne_nil hne]
        have hsplit : (y :: ys).dropLast ++ [(y :: ys).getLast hne] = y :: ys :=
          List.dropLast_append_getLast hne
        have hp : ((y :: ys).getLast hne :: (y :: ys).dropLast).Perm
            ((y :: ys).dropLast ++ [(y :: ys).getLast hne]) :=
          (List.perm_append_singleton _ _).symm
        rw [hsplit] at hp
        simpa [List.eraseIdx] using hp
      | succ i =>
        have hi : i < (y :: ys).length := by simpa using h
        rw [swapRemove_eq hlast (i + 1)]
        have hset : (x :: y :: ys).set (i + 1) ((y :: ys).getLast hne) =
            x :: (y :: ys).set i ((y :: ys).getLast hne) := rfl
        rw [hset]
        have hsetne : ((y :: ys).set i ((y :: ys).getLast hne)) ≠ [] := by
          intro hnil
          have := congrArg List.length hnil
          simp at this
        rw [List.dropLast_cons_of_ne_nil hsetne]
        have hrhs : (x :: y :: ys).eraseIdx (i + 1) = x :: (y :: ys).eraseIdx i := rfl
        rw [hrhs]
        have hrec := ih hi
        rw [swapRemove_eq (List.getLast?_eq_getLast _ hne) i] at hrec
        exact hrec.cons x

theorem swapRemove_perm_erase {α : Type} [DecidableEq α] {l : List α} {c : α} {i : Nat}
    (h : positionOf l c = some i) : (swapRemove l i).Perm (l.erase c) := by
  have hlt := positionOf_lt_length h
  have hget := positionOf_getElem h
  have h₁ := swapRemove_perm_eraseIdx hlt
  have h₂ : l.Perm (c :: l.eraseIdx i) := perm_cons_eraseIdx hget
  have hc : c ∈ l := by
    obtain ⟨hj, hv⟩ := List.getElem?_eq_some.mp hget
    exact hv ▸ List.getElem_mem hj
  have h₄ : l.Perm (c :: l.erase c) := List.perm_cons_erase hc
  have h₃ : (c :: l.eraseIdx i).Perm (c :: l.erase c) := h₂.symm.trans h₄
  exact h₁.trans (List.Perm.cons_inv h₃)

/-! ### Unfolding lemmas for `Group.remove_connection` -/

theorem Group.remove_connection_empty {g : Group} {ctx : ConnectionContext}
    (hE : (merase g.connections ctx.conn_id).isEmpty = true) :
    g.remove_connection ctx =
      some ({ g with connections := merase g.connections ctx.conn_id }, true, []) := by
  simp [Group.remove_connection, hE]

theorem Group.remove_connection_last {g : Group} {ctx : ConnectionContext} {l : List ConnID}
    (hE : (merase g.connections ctx.conn_id).isEmpty = false)
    (hl : mlookup g.online_users ctx.user_id = some l) (hlen : l.length = 1) :
    g.remove_connection ctx =
      some ({ g with
                connections := merase g.connections ctx.conn_id
                online_users := merase g.online_users ctx.user_id },
            false, [Event.offline ctx.user_id]) := by
  simp [Group.remove_connection, hE, hl, hlen, Group.send_user_offline]

theorem Group.remove_connection_swap {g : Group} {ctx : ConnectionContext} {l : List ConnID}
    {i : Nat} (hE : (merase g.connections ctx.conn_id).isEmpty = false)
    (hl : mlookup g.online_users ctx.user_id = some l) (hlen : ¬ l.length = 1)
    (hi : positionOf l ctx.conn_id = some i) :
    g.remove_connection ctx =
      some ({ g with
                connections := merase g.connections ctx.conn_id
                online_users := minsert g.online_users ctx.user_id (swapRemove l i) },
            false, []) := by
  simp [Group.remove_connection, hE, hl, hlen, hi]

theorem Group.remove_connection_isSome {g : Group} {ctx : ConnectionContext} {l : List ConnID}
    (hl : mlookup g.online_users ctx.user_id = some l) (hc : ctx.conn_id ∈ l) :
    ∃ r, g.remove_connection ctx = some r := by
  cases hE : (merase g.connections ctx.conn_id).isEmpty with
  | true => exact ⟨_, Group.remove_connection_empty hE⟩
  | false =>
    by_cases hlen : l.length = 1
    · exact ⟨_, Group.remove_connection_last hE hl hlen⟩
    · rcases Option.isSome_iff_exists.mp (positionOf_isSome hc) with ⟨i, hi⟩
      exact ⟨_, Group.remove_connection_swap hE hl hlen hi⟩

/-! ### The ConnectionID allocator -/

theorem allocCounter_eq (k : Nat) : allocCounter k = (1 + k) % USIZE := by
  have hW : USIZE = 18446744073709551616 := by norm_num [USIZE]
  induction k with
  | zero =>
    simp [allocCounter, hW]
  | succ k ih =>
    have h1 : 1 + (k + 1) = (1 + k) + 1 := by omega
    simp only [allocCounter, fetchAdd1, ih, h1]
    exact Nat.mod_add_mod (1 + k) USIZE 1

theorem allocValue_eq (k : Nat) : allocValue k = (1 + k) % USIZE := by
  simp [allocValue, fetchAdd1, allocCounter_eq]

/-- C9 (amended): within the first `2 ^ 64 - 1` calls, the allocator starts
at 1 and every later call returns a strictly greater (hence never repeated)
value; the `usize` counter wraps beyond that. -/
theorem connection_id_allocator_strictly_increasing (i j : Nat) (hij : i < j)
    (hj : j < USIZE - 1) :
    allocValue 0 = 1 ∧ allocValue i < allocValue j := by
  have hW : USIZE = 18446744073709551616 := by norm_num [USIZE]
  rw [hW] at hj
  constructor
  · rw [allocValue_eq, hW]
  · rw [allocValue_eq, allocValue_eq, hW]
    omega

/-- C9 witness: the second call returns a value strictly above the first. -/
theorem connection_id_allocator_strictly_increasing_witness :
    0 < 1 ∧ 1 < USIZE - 1 ∧ (allocValue 0 = 1 ∧ allocValue 0 < allocValue 1) :=
  ⟨by decide, by norm_num [USIZE],
    connection_id_allocator_strictly_increasing 0 1 (by decide) (by norm_num [USIZE])⟩

/-- C9 counterexample: the `2 ^ 64`-th call returns 0, which is not strictly
greater than the first call's value 1, refuting unbounded strict growth and
process-lifetime uniqueness as stated. -/
theorem connection_id_allocator_wrap_counterexample :
    allocValue 0 = 1 ∧ allocValue (USIZE - 1) = 0 ∧
      ¬ allocValue 0 < allocValue (USIZE - 1) := by
  have hW : USIZE = 18446744073709551616 := by norm_num [USIZE]
  refine ⟨by rw [allocValue_eq, hW], ?_, ?_⟩
  · rw [allocValue_eq, hW]
  · rw [allocValue_eq, allocValue_eq, hW]
    omega

/-! ### C5: atomicity of connect on storage failure -/

/-- C5: if the group is absent and the channel-list fetch fails, the error is
propagated and the group map is exactly as before: no group, no connection,
no `online_users` entry is created. -/
theorem connect_storage_failure_atomic (m : GroupMap) (conn_ctx : ConnectionContext)
    (ch_tx : Sender) (e : Error) (habs : mlookup m conn_ctx.group_id = none) :
    Context.connect m conn_ctx ch_tx (.error e) = (m, [], some e) ∧
    Context.insert_connection m conn_ctx ch_tx (.error e) = .error e := by
  constructor
  · simp [Context.connect, Context.insert_connection, habs, Group.new]
  · simp [Context.insert_connection, habs, Group.new]

/-- C5 witness. -/
theorem connect_storage_failure_atomic_witness :
    mlookup ([] : GroupMap) (7 : GroupID) = none ∧
    Context.connect [] ⟨1, 7, 101⟩ 5 (.error (.storage 2)) = ([], [], some (.storage 2)) :=
  ⟨rfl, (connect_storage_failure_atomic [] ⟨1, 7, 101⟩ 5 (.storage 2) rfl).1⟩

/-! ### C7: invariant violations are fatal, and unreachable for registered
connections -/

/-- C7: removing a connection whose user has no `online_users` entry while the
group stays non-empty panics, and disconnecting with the group absent from the
map panics; when the connection's user entry is present and lists the
connection (the registry invariant for an inserted connection), removal never
reaches a panicking branch. -/
theorem remove_unregistered_connection_panics :
    (∀ (g : Group) (ctx : ConnectionContext),
        (merase g.connections ctx.conn_id).isEmpty = false →
        mlookup g.online_users ctx.user_id = none →
        g.remove_connection ctx = none) ∧
    (∀ (m : GroupMap) (ctx : ConnectionContext),
        mlookup m ctx.group_id = none → Context.remove_connection m ctx = none) ∧
    (∀ (m : GroupMap) (ctx : ConnectionContext) (g : Group) (l : List ConnID),
        mlookup m ctx.group_id = some g →
        mlookup g.online_users ctx.user_id = some l →
        ctx.conn_id ∈ l →
        ∃ r, Context.remove_connection m ctx = some r) := by
  refine ⟨?_, ?_, ?_⟩
  · intro g ctx hne habs
    simp [Group.remove_connection, hne, habs]
  · intro m ctx habs
    simp [Context.remove_connection, habs]
  · intro m ctx g l hm hl hc
    rcases Group.remove_connection_isSome hl hc with ⟨⟨g', b, events⟩, hr⟩
    cases b with
    | true =>
      exact ⟨(merase m ctx.group_id, events), by simp [Context.remove_connection, hm, hr]⟩
    | false =>
      exact ⟨(minsert m ctx.group_id g', events), by simp [Context.remove_connection, hm, hr]⟩

/-- C7 witness: a registered connection is removed without hitting a
panicking branch. -/
theorem remove_unregistered_connection_panics_witness :
    mlookup [((7 : GroupID), Group.mk [] [(101, 5)] [(1, [101])])] (7 : GroupID) =
      some (Group.mk [] [(101, 5)] [(1, [101])]) ∧
    mlookup [((1 : UserID), [(101 : ConnID)])] (1 : UserID) = some [101] ∧
    (101 : ConnID) ∈ [(101 : ConnID)] ∧
    ∃ r, Context.remove_connection [((7 : GroupID), Group.mk [] [(101, 5)] [(1, [101])])]
      ⟨1, 7, 101⟩ = some r :=
  ⟨rfl, rfl, by decide,
    remove_unregistered_connection_panics.2.2
      [((7 : GroupID), Group.mk [] [(101, 5)] [(1, [101])])] ⟨1, 7, 101⟩
      (Group.mk [] [(101, 5)] [(1, [101])]) [101] rfl rfl (by decide)⟩

/-! ### C8: identity and membership checks precede any registration -/

/-- C8: if session resolution yields no user, or the user is not a member of
the group, the upgrade handler answers with an error status and neither
allocates a ConnectionID nor touches the group map; the state changes only
when both checks succeed and the request is upgraded. -/
theorem upgrade_checks_before_registration (group_id : GroupID)
    (memberOf : UserID → Except Error Bool) (st : UpgradeState) (ch_tx : Sender)
    (channelsResult : Except Error (List Channel)) :
    Context.upgrade group_id (.ok none) memberOf st ch_tx channelsResult =
      (.status 500, st) ∧
    (∀ u, memberOf u = .ok false →
        Context.upgrade group_id (.ok (some u)) memberOf st ch_tx channelsResult =
          (.status 500, st)) ∧
    (∀ sessionRes r st',
        Context.upgrade group_id sessionRes memberOf st ch_tx channelsResult = (r, st') →
        st' ≠ st →
        ∃ u, sessionRes = .ok (some u) ∧ memberOf u = .ok true ∧
          r = .upgraded st.next_conn_id) := by
  refine ⟨by simp [Context.upgrade], ?_, ?_⟩
  · intro u hu
    simp [Context.upgrade, hu]
  · intro sessionRes r st' hup hne
    match sessionRes with
    | .error e => simp [Context.upgrade] at hup; exact absurd hup.2.symm hne
    | .ok none => simp [Context.upgrade] at hup; exact absurd hup.2.symm hne
    | .ok (some u) =>
      match hu : memberOf u with
      | .error e =>
        simp [Context.upgrade, hu] at hup
        exact absurd hup.2.symm hne
      | .ok false =>
        simp [Context.upgrade, hu] at hup
        exact absurd hup.2.symm hne
      | .ok true =>
        refine ⟨u, rfl, hu, ?_⟩
        simp [Context.upgrade, hu, fetchAdd1] at hup
        exact hup.1.symm

/-- C8 witness: a non-member request is refused with status 500 and the state
is untouched. -/
theorem upgrade_checks_before_registration_witness :
    (fun _ : UserID => (.ok false : Except Error Bool)) 1 = .ok false ∧
    Context.upgrade 7 (.ok (some 1)) (fun _ => .ok false)
      { next_conn_id := 1, groups := [] } 5 (.ok []) =
      (.status 500, { next_conn_id := 1, groups := [] }) :=
  ⟨rfl, (upgrade_checks_before_registration 7 (fun _ => .ok false)
      { next_conn_id := 1, groups := [] } 5 (.ok [])).2.1 1 rfl⟩

/-! ### C3: when an online event is emitted -/

/-- C3 (amended): for insertions performed by `Group::insert_connection` into
an existing group, with the user's entry non-empty if present (the registry
invariant), a "user online" event is emitted exactly when the user's entry
transitions from absent to one element; insertion appends the conn id to the
entry (creating it if absent) and adds the connection with its queue handle to
`connections`.  The insertion performed when the group is first created
(`Group::new`, reached through `Context::insert_connection` on an absent
group id) initializes the entry but emits no event. -/
theorem insert_connection_online_event (g : Group) (ctx : ConnectionContext) (ch_tx : Sender)
    (hne : mlookup g.online_users ctx.user_id ≠ some []) :
    ((g.insert_connection ctx ch_tx).2 = [Event.online ctx.user_id] ↔
        mlookup g.online_users ctx.user_id = none) ∧
    ((g.insert_connection ctx ch_tx).2 = [] ↔
        (mlookup g.online_users ctx.user_id).isSome = true) ∧
    mlookup (g.insert_connection ctx ch_tx).1.online_users ctx.user_id =
      some ((mlookup g.online_users ctx.user_id).getD [] ++ [ctx.conn_id]) ∧
    mlookup (g.insert_connection ctx ch_tx).1.connections ctx.conn_id = some ch_tx ∧
    (∀ (m : GroupMap) (channelsResult : Except Error (List Channel)) (m' : GroupMap)
        (events : List Event), mlookup m ctx.group_id = none →
        Context.insert_connection m ctx ch_tx channelsResult = .ok (m', events) →
        events = []) := by
  refine ⟨?_, ?_, ?_, ?_, ?_⟩
  · cases hlk : mlookup g.online_users ctx.user_id with
    | none => simp [Group.insert_connection, hlk, Group.send_user_online]
    | some l =>
      have hlne : l ≠ [] := fun h => hne (h ▸ hlk)
      have hlen : l.length + 1 ≠ 1 := by
        have := List.length_pos.mpr hlne
        omega
      simp [Group.insert_connection, hlk, hlen]
  · cases hlk : mlookup g.online_users ctx.user_id with
    | none => simp [Group.insert_connection, hlk, Group.send_user_online]
    | some l =>
      have hlne : l ≠ [] := fun h => hne (h ▸ hlk)
      have hlen : l.length + 1 ≠ 1 := by
        have := List.length_pos.mpr hlne
        omega
      simp [Group.insert_connection, hlk, hlen]
  · simp [Group.insert_connection, mlookup_minsert_self]
  · simp [Group.insert_connection, mlookup_minsert_self]
  · intro m channelsResult m' events habs hins
    match channelsResult with
    | .error e => simp [Context.insert_connection, habs, Group.new] at hins
    | .ok channels =>
      simp [Context.insert_connection, habs, Group.new] at hins
      exact hins.2

/-- C3 witness. -/
theorem insert_connection_online_event_witness :
    mlookup (Group.mk [] [(11, 6)] [(2, [11])]).online_users (1 : UserID) ≠ some [] ∧
    (((Group.mk [] [(11, 6)] [(2, [11])]).insert_connection ⟨1, 7, 101⟩ 5).2 =
        [Event.online 1] ↔
      mlookup (Group.mk [] [(11, 6)] [(2, [11])]).online_users (1 : UserID) = none) ∧
    ((((Group.mk [] [(11, 6)] [(2, [11])]).insert_connection ⟨1, 7, 101⟩ 5).2 = []) ↔
      (mlookup (Group.mk [] [(11, 6)] [(2, [11])]).online_users (1 : UserID)).isSome = true) ∧
    mlookup ((Group.mk [] [(11, 6)] [(2, [11])]).insert_connection ⟨1, 7, 101⟩ 5).1.online_users
      (1 : UserID) =
      some ((mlookup (Group.mk [] [(11, 6)] [(2, [11])]).online_users (1 : UserID)).getD []
        ++ [101]) ∧
    mlookup ((Group.mk [] [(11, 6)] [(2, [11])]).insert_connection ⟨1, 7, 101⟩ 5).1.connections
      (101 : ConnID) = some 5 ∧
    (∀ (m : GroupMap) (channelsResult : Except Error (List Channel)) (m' : GroupMap)
        (events : List Event), mlookup m (7 : GroupID) = none →
        Context.insert_connection m ⟨1, 7, 101⟩ 5 channelsResult = .ok (m', events) →
        events = []) :=
  ⟨by decide, insert_connection_online_event (Group.mk [] [(11, 6)] [(2, [11])])
    ⟨1, 7, 101⟩ 5 (by decide)⟩

/-- C3 counterexample: on an empty map, the connect that creates the group
moves the user's entry from absent to one element, yet the emitted event list
is empty — no "user online" event accompanies the group-creating insertion. -/
theorem online_event_group_creation_counterexample :
    Context.insert_connection ([] : GroupMap) ⟨1, 7, 101⟩ 5 (.ok []) =
      .ok ([(7, Group.mk [] [(101, 5)] [(1, [101])])], []) ∧
    mlookup ([] : GroupMap) (7 : GroupID) = none ∧
    mlookup (Group.mk [] [(101, 5)] [(1, [101])]).online_users (1 : UserID) = some [101] :=
  ⟨rfl, rfl, rfl⟩

/-! ### C4: what `remove_connection` does -/

theorem Group.remove_connection_position_none {g : Group} {ctx : ConnectionContext}
    {l : List ConnID} (hE : (merase g.connections ctx.conn_id).isEmpty = false)
    (hl : mlookup g.online_users ctx.user_id = some l) (hlen : ¬ l.length = 1)
    (hp : positionOf l ctx.conn_id = none) :
    g.remove_connection ctx = none := by
  simp [Group.remove_connection, hE, hl, hlen, hp]

/-- C4: for a registered connection context, `Group::remove_connection`
removes the conn id from `connections` and returns true exactly when
`connections` becomes empty, in which case `online_users` is untouched, no
event is emitted and the context-level disconnect deletes the group's key;
otherwise it returns false, the context-level disconnect stores the updated
group back, and the conn id is removed from the user's entry — deleting the
entry and emitting a "user offline" event when it was the last one,
leaving the entry present otherwise. -/
theorem remove_connection_spec (m : GroupMap) (g : Group) (ctx : ConnectionContext)
    (l : List ConnID)
    (hm : mlookup m ctx.group_id = some g)
    (hl : mlookup g.online_users ctx.user_id = some l)
    (hc : ctx.conn_id ∈ l) :
    ∃ g' b events, g.remove_connection ctx = some (g', b, events) ∧
      g'.connections = merase g.connections ctx.conn_id ∧
      ((b = true) ↔ merase g.connections ctx.conn_id = []) ∧
      (b = true →
        g'.online_users = g.online_users ∧ events = [] ∧
        Context.remove_connection m ctx = some (merase m ctx.group_id, [])) ∧
      (b = false →
        Context.remove_connection m ctx = some (minsert m ctx.group_id g', events) ∧
        (l.length = 1 →
          mlookup g'.online_users ctx.user_id = none ∧
          events = [Event.offline ctx.user_id]) ∧
        (l.length ≠ 1 →
          ∃ l', mlookup g'.online_users ctx.user_id = some l' ∧
            l'.Perm (l.erase ctx.conn_id) ∧ l' ≠ [] ∧ events = [])) := by
  cases hE : (merase g.connections ctx.conn_id).isEmpty with
  | true =>
    have hnil : merase g.connections ctx.conn_id = [] := by
      simpa [List.isEmpty_iff] using hE
    refine ⟨_, true, [], Group.remove_connection_empty hE, rfl, by simp [hnil], ?_, by simp⟩
    intro _
    refine ⟨rfl, rfl, ?_⟩
    simp [Context.remove_connection, hm, Group.remove_connection_empty hE]
  | false =>
    have hnnil : merase g.connections ctx.conn_id ≠ [] := by
      simpa [List.isEmpty_eq_false] using hE
    by_cases hlen : l.length = 1
    · refine ⟨_, false, [Event.offline ctx.user_id],
        Group.remove_connection_last hE hl hlen, rfl, by simp [hnnil], by simp, ?_⟩
      intro _
      refine ⟨?_, fun _ => ⟨?_, rfl⟩, fun h => absurd hlen h⟩
      · simp [Context.remove_connection, hm, Group.remove_connection_last hE hl hlen]
      · simp [mlookup_merase_self]
    · rcases Option.isSome_iff_exists.mp (positionOf_isSome hc) with ⟨i, hi⟩
      refine ⟨_, false, [], Group.remove_connection_swap hE hl hlen hi, rfl,
        by simp [hnnil], by simp, ?_⟩
      intro _
      refine ⟨?_, fun h => absurd h hlen, fun _ => ?_⟩
      · simp [Context.remove_connection, hm, Group.remove_connection_swap hE hl hlen hi]
      · refine ⟨swapRemove l i, ?_, swapRemove_perm_erase hi, ?_, rfl⟩
        · simp [mlookup_minsert_self]
        · have hperm := swapRemove_perm_erase hi
          have hlerase : (l.erase ctx.conn_id).length = l.length - 1 :=
            List.length_erase_of_mem hc
          have hlpos : 0 < l.length := List.length_pos.mpr (List.ne_nil_of_mem hc)
          have : (swapRemove l i).length = l.length - 1 := by
            rw [hperm.length_eq, hlerase]
          intro hnil
          rw [hnil] at this
          simp at this
          omega

/-- C4 witness: removing the single connection of user 1 while another user
keeps the group alive. -/
theorem remove_connection_spec_witness :
    mlookup [((7 : GroupID), Group.mk [] [(101, 5), (11, 6)] [(1, [101]), (2, [11])])]
      (7 : GroupID) = some (Group.mk [] [(101, 5), (11, 6)] [(1, [101]), (2, [11])]) ∧
    mlookup (Group.mk [] [(101, 5), (11, 6)] [(1, [101]), (2, [11])]).online_users
      (1 : UserID) = some [101] ∧
    (101 : ConnID) ∈ [(101 : ConnID)] ∧
    (∃ g' b events,
      (Group.mk [] [(101, 5), (11, 6)] [(1, [101]), (2, [11])]).remove_connection
        ⟨1, 7, 101⟩ = some (g', b, events) ∧
      g'.connections =
        merase (Group.mk [] [(101, 5), (11, 6)] [(1, [101]), (2, [11])]).connections 101 ∧
      ((b = true) ↔
        merase (Group.mk [] [(101, 5), (11, 6)] [(1, [101]), (2, [11])]).connections 101
          = []) ∧
      (b = true →
        g'.online_users =
          (Group.mk [] [(101, 5), (11, 6)] [(1, [101]), (2, [11])]).online_users ∧
        events = [] ∧
        Context.remove_connection
          [((7 : GroupID), Group.mk [] [(101, 5), (11, 6)] [(1, [101]), (2, [11])])]
          ⟨1, 7, 101⟩ =
          some (merase
            [((7 : GroupID), Group.mk [] [(101, 5), (11, 6)] [(1, [101]), (2, [11])])] 7,
            [])) ∧
      (b = false →
        Context.remove_connection
          [((7 : GroupID), Group.mk [] [(101, 5), (11, 6)] [(1, [101]), (2, [11])])]
          ⟨1, 7, 101⟩ =
          some (minsert
            [((7 : GroupID), Group.mk [] [(101, 5), (11, 6)] [(1, [101]), (2, [11])])]
            7 g', events) ∧
        (([101] : List ConnID).length = 1 →
          mlookup g'.online_users (1 : UserID) = none ∧
          events = [Event.offline 1]) ∧
        (([101] : List ConnID).length ≠ 1 →
          ∃ l', mlookup g'.online_users (1 : UserID) = some l' ∧
            l'.Perm (([101] : List ConnID).erase 101) ∧ l' ≠ [] ∧ events = []))) :=
  ⟨rfl, rfl, by decide,
    remove_connection_spec
      [((7 : GroupID), Group.mk [] [(101, 5), (11, 6)] [(1, [101]), (2, [11])])]
      (Group.mk [] [(101, 5), (11, 6)] [(1, [101]), (2, [11])])
      ⟨1, 7, 101⟩ [101] rfl rfl (by decide)⟩

/-! ### C1: preservation of the registry invariant -/

theorem mlookup_minsert_isSome {κ ν : Type} [DecidableEq κ] (m : List (κ × ν)) (k k' : κ)
    (v : ν) (h : (mlookup m k').isSome = true) :
    (mlookup (minsert m k v) k').isSome = true := by
  by_cases hk : k = k'
  · subst hk
    rw [mlookup_minsert_self]
    rfl
  · rw [mlookup_minsert_ne _ _ hk]
    exact h

theorem Group.new_rinv {ctx : ConnectionContext} {channelsResult : Except Error (List Channel)}
    {ch_tx : Sender} {g : Group} (h : Group.new ctx channelsResult ch_tx = .ok g) :
    g.RInv := by
  match channelsResult with
  | .error e => simp [Group.new] at h
  | .ok channels =>
    simp [Group.new] at h
    subst h
    constructor
    · simp [minsert]
    · intro u l hl
      by_cases hu : ctx.user_id = u
      · subst hu
        rw [mlookup_minsert_self] at hl
        injection hl with hl
        subst hl
        refine ⟨by simp, ?_⟩
        intro c' hc'
        simp at hc'
        subst hc'
        rw [mlookup_minsert_self]
        rfl
      · rw [mlookup_minsert_ne _ _ hu] at hl
        simp [mlookup] at hl

theorem Group.insert_rinv (g : Group) (ctx : ConnectionContext) (ch_tx : Sender)
    (h : g.RInv) : (g.insert_connection ctx ch_tx).1.RInv := by
  obtain ⟨hconn, hentries⟩ := h
  have hgi : (g.insert_connection ctx ch_tx).1 =
      { g with
          online_users := minsert g.online_users ctx.user_id
            ((mlookup g.online_users ctx.user_id).getD [] ++ [ctx.conn_id])
          connections := minsert g.connections ctx.conn_id ch_tx } := rfl
  rw [hgi]
  constructor
  · simp [minsert]
  · intro u l hl
    simp only at hl
    by_cases hu : ctx.user_id = u
    · subst hu
      rw [mlookup_minsert_self] at hl
      injection hl with hl
      subst hl
      refine ⟨by simp, ?_⟩
      intro c' hc'
      rcases List.mem_append.mp hc' with hc' | hc'
      · cases hlk : mlookup g.online_users ctx.user_id with
        | none =>
          rw [hlk] at hc'
          simp at hc'
        | some l0 =>
          rw [hlk] at hc'
          simp at hc'
          exact mlookup_minsert_isSome _ _ _ _ ((hentries _ _ hlk).2 c' hc')
      · simp at hc'
        subst hc'
        rw [mlookup_minsert_self]
        rfl
    · rw [mlookup_minsert_ne _ _ hu] at hl
      obtain ⟨hne, hall⟩ := hentries u l hl
      exact ⟨hne, fun c' hc' => mlookup_minsert_isSome _ _ _ _ (hall c' hc')⟩

theorem Group.remove_rinv_last {g : Group} {ctx : ConnectionContext} {l : List ConnID}
    (h : g.RInv) (hro : g.registeredOnce ctx.user_id ctx.conn_id)
    (hE : (merase g.connections ctx.conn_id).isEmpty = false)
    (_hl : mlookup g.online_users ctx.user_id = some l) :
    Group.RInv { g with
                   connections := merase g.connections ctx.conn_id
                   online_users := merase g.online_users ctx.user_id } := by
  obtain ⟨hconn, hentries⟩ := h
  constructor
  · simpa [List.isEmpty_eq_false] using hE
  · intro u' l₂ hl₂
    simp only at hl₂
    by_cases hu : ctx.user_id = u'
    · subst hu
      rw [mlookup_merase_self] at hl₂
      cases hl₂
    · rw [mlookup_merase_ne _ hu] at hl₂
      obtain ⟨hne, hall⟩ := hentries u' l₂ hl₂
      refine ⟨hne, fun c' hc' => ?_⟩
      have hcu : ctx.conn_id ≠ c' := by
        intro hcc
        subst hcc
        exact hu ((hro u' l₂ hl₂).1 hc').symm
      rw [mlookup_merase_ne _ hcu]
      exact hall c' hc'

theorem Group.remove_rinv_swap {g : Group} {ctx : ConnectionContext} {l : List ConnID}
    {i : Nat} (h : g.RInv) (hro : g.registeredOnce ctx.user_id ctx.conn_id)
    (hE : (merase g.connections ctx.conn_id).isEmpty = false)
    (hl : mlookup g.online_users ctx.user_id = some l) (hlen : ¬ l.length = 1)
    (hi : positionOf l ctx.conn_id = some i) :
    Group.RInv { g with
                   connections := merase g.connections ctx.conn_id
                   online_users := minsert g.online_users ctx.user_id (swapRemove l i) } := by
  obtain ⟨hconn, hentries⟩ := h
  have hperm := swapRemove_perm_erase hi
  have hcmem : ctx.conn_id ∈ l := by
    obtain ⟨hj, hv⟩ := List.getElem?_eq_some.mp (positionOf_getElem hi)
    exact hv ▸ List.getElem_mem hj
  have hcount : l.count ctx.conn_id ≤ 1 := (hro _ _ hl).2
  have hnotin : ctx.conn_id ∉ swapRemove l i := by
    intro hmem
    have h1 : 0 < l.count ctx.conn_id := List.count_pos_iff.mpr hcmem
    have h2 : List.count ctx.conn_id (l.erase ctx.conn_id) = l.count ctx.conn_id - 1 :=
      List.count_erase_self _ _
    have h3 := hperm.count_eq ctx.conn_id
    have h4 : 0 < (swapRemove l i).count ctx.conn_id := List.count_pos_iff.mpr hmem
    omega
  constructor
  · simpa [List.isEmpty_eq_false] using hE
  · intro u' l₂ hl₂
    simp only at hl₂
    by_cases hu : ctx.user_id = u'
    · subst hu
      rw [mlookup_minsert_self] at hl₂
      injection hl₂ with hl₂
      subst hl₂
      constructor
      · have hlerase : (l.erase ctx.conn_id).length = l.length - 1 :=
          List.length_erase_of_mem hcmem
        have hlpos : 0 < l.length := List.length_pos.mpr (List.ne_nil_of_mem hcmem)
        have hlength : (swapRemove l i).length = l.length - 1 := by
          rw [hperm.length_eq, hlerase]
        intro hnil
        rw [hnil] at hlength
        simp at hlength
        omega
      · intro c' hc'
        have hc'l : c' ∈ l := List.mem_of_mem_erase (hperm.mem_iff.mp hc')
        have hcu : ctx.conn_id ≠ c' := fun hcc => hnotin (hcc ▸ hc')
        rw [mlookup_merase_ne _ hcu]
        exact (hentries _ _ hl).2 c' hc'l
    · rw [mlookup_minsert_ne _ _ hu] at hl₂
      obtain ⟨hne, hall⟩ := hentries u' l₂ hl₂
      refine ⟨hne, fun c' hc' => ?_⟩
      have hcu : ctx.conn_id ≠ c' := by
        intro hcc
        subst hcc
        exact hu ((hro u' l₂ hl₂).1 hc').symm
      rw [mlookup_merase_ne _ hcu]
      exact hall c' hc'

/-- C1: the registry invariant — every group present in the map has non-empty
`connections`, and every `online_users` entry is a non-empty list of keys of
`connections` — is preserved by `Group::new`, `Group::insert_connection`, and
the Context-level insertion and removal (removal under the bookkeeping
discipline that the removed connection is listed only for its own user, which
Context-level insertion guarantees for every live connection). -/
theorem registry_invariant_preserved :
    (∀ (ctx : ConnectionContext) (channelsResult : Except Error (List Channel))
        (ch_tx : Sender) (g : Group),
        Group.new ctx channelsResult ch_tx = .ok g → g.RInv) ∧
    (∀ (g : Group) (ctx : ConnectionContext) (ch_tx : Sender),
        g.RInv → (g.insert_connection ctx ch_tx).1.RInv) ∧
    (∀ (m : GroupMap) (ctx : ConnectionContext) (ch_tx : Sender)
        (channelsResult : Except Error (List Channel)) (m' : GroupMap)
        (events : List Event),
        MapRInv m →
        Context.insert_connection m ctx ch_tx channelsResult = .ok (m', events) →
        MapRInv m') ∧
    (∀ (m : GroupMap) (ctx : ConnectionContext) (m' : GroupMap) (events : List Event),
        MapRInv m →
        (∀ g, mlookup m ctx.group_id = some g →
          g.registeredOnce ctx.user_id ctx.conn_id) →
        Context.remove_connection m ctx = some (m', events) →
        MapRInv m') := by
  refine ⟨fun _ _ _ _ h => Group.new_rinv h, fun g ctx tx h => Group.insert_rinv g ctx tx h,
    ?_, ?_⟩
  · intro m ctx ch_tx channelsResult m' events hinv hins
    cases hg : mlookup m ctx.group_id with
    | some g =>
      simp [Context.insert_connection, hg] at hins
      obtain ⟨hm', -⟩ := hins
      subst hm'
      intro gid g' hg'
      by_cases hgid : ctx.group_id = gid
      · subst hgid
        rw [mlookup_minsert_self] at hg'
        injection hg' with hg'
        subst hg'
        exact Group.insert_rinv g ctx ch_tx (hinv _ _ hg)
      · rw [mlookup_minsert_ne _ _ hgid] at hg'
        exact hinv _ _ hg'
    | none =>
      match hch : channelsResult with
      | .error e => simp [Context.insert_connection, hg, Group.new] at hins
      | .ok channels =>
        simp [Context.insert_connection, hg, Group.new] at hins
        obtain ⟨hm', -⟩ := hins
        subst hm'
        intro gid g' hg'
        by_cases hgid : ctx.group_id = gid
        · subst hgid
          rw [mlookup_minsert_self] at hg'
          injection hg' with hg'
          subst hg'
          exact Group.new_rinv (show Group.new ctx (.ok channels) ch_tx = .ok
            { channels := channels,
              connections := minsert [] ctx.conn_id ch_tx,
              online_users := minsert [] ctx.user_id [ctx.conn_id] } from rfl)
        · rw [mlookup_minsert_ne _ _ hgid] at hg'
          exact hinv _ _ hg'
  · intro m ctx m' events hinv hreg hrem
    cases hg : mlookup m ctx.group_id with
    | none => simp [Context.remove_connection, hg] at hrem
    | some g =>
      have hro := hreg g hg
      have hginv := hinv _ _ hg
      cases hE : (merase g.connections ctx.conn_id).isEmpty with
      | true =>
        simp [Context.remove_connection, hg, Group.remove_connection_empty hE] at hrem
        obtain ⟨hm', -⟩ := hrem
        subst hm'
        intro gid g' hg'
        by_cases hgid : ctx.group_id = gid
        · subst hgid
          rw [mlookup_merase_self] at hg'
          cases hg'
        · rw [mlookup_merase_ne _ hgid] at hg'
          exact hinv _ _ hg'
      | false =>
        cases hl : mlookup g.online_users ctx.user_id with
        | none =>
          have hnone : g.remove_connection ctx = none := by
            simp [Group.remove_connection, hE, hl]
          simp [Context.remove_connection, hg, hnone] at hrem
        | some l =>
          by_cases hlen : l.length = 1
          · simp [Context.remove_connection, hg,
              Group.remove_connection_last hE hl hlen] at hrem
            obtain ⟨hm', -⟩ := hrem
            subst hm'
            intro gid g' hg'
            by_cases hgid : ctx.group_id = gid
            · subst hgid
              rw [mlookup_minsert_self] at hg'
              injection hg' with hg'
              subst hg'
              exact Group.remove_rinv_last hginv hro hE hl
            · rw [mlookup_minsert_ne _ _ hgid] at hg'
              exact hinv _ _ hg'
          · cases hi : positionOf l ctx.conn_id with
            | none =>
              simp [Context.remove_connection, hg,
                Group.remove_connection_position_none hE hl hlen hi] at hrem
            | some i =>
              simp [Context.remove_connection, hg,
                Group.remove_connection_swap hE hl hlen hi] at hrem
              obtain ⟨hm', -⟩ := hrem
              subst hm'
              intro gid g' hg'
              by_cases hgid : ctx.group_id = gid
              · subst hgid
                rw [mlookup_minsert_self] at hg'
                injection hg' with hg'
                subst hg'
                exact Group.remove_rinv_swap hginv hro hE hl hlen hi
              · rw [mlookup_minsert_ne _ _ hgid] at hg'
                exact hinv _ _ hg'

/-- C1 witness: the invariant survives a removal from a two-user group. -/
theorem registry_invariant_preserved_witness :
    MapRInv [((7 : GroupID), Group.mk [] [(101, 5), (11, 6)] [(1, [101]), (2, [11])])] ∧
    (∀ g, mlookup [((7 : GroupID), Group.mk [] [(101, 5), (11, 6)] [(1, [101]), (2, [11])])]
        ((⟨1, 7, 101⟩ : ConnectionContext).group_id) = some g →
      g.registeredOnce 1 101) ∧
    Context.remove_connection
      [((7 : GroupID), Group.mk [] [(101, 5), (11, 6)] [(1, [101]), (2, [11])])]
      ⟨1, 7, 101⟩ =
      some (minsert [((7 : GroupID), Group.mk [] [(101, 5), (11, 6)] [(1, [101]), (2, [11])])]
        7 (Group.mk [] [(11, 6)] [(2, [11])]), [Event.offline 1]) ∧
    MapRInv (minsert [((7 : GroupID), Group.mk [] [(101, 5), (11, 6)] [(1, [101]), (2, [11])])]
      7 (Group.mk [] [(11, 6)] [(2, [11])])) := by
  have h1 : MapRInv [((7 : GroupID), Group.mk [] [(101, 5), (11, 6)] [(1, [101]), (2, [11])])] :=
    mapRInv_of_b (by decide)
  have h2 : ∀ g, mlookup
      [((7 : GroupID), Group.mk [] [(101, 5), (11, 6)] [(1, [101]), (2, [11])])]
      ((⟨1, 7, 101⟩ : ConnectionContext).group_id) = some g → g.registeredOnce 1 101 := by
    intro g hg
    cases hg
    exact Group.registeredOnce_of_b (by decide)
  have h3 : Context.remove_connection
      [((7 : GroupID), Group.mk [] [(101, 5), (11, 6)] [(1, [101]), (2, [11])])]
      ⟨1, 7, 101⟩ =
      some (minsert [((7 : GroupID), Group.mk [] [(101, 5), (11, 6)] [(1, [101]), (2, [11])])]
        7 (Group.mk [] [(11, 6)] [(2, [11])]), [Event.offline 1]) := rfl
  exact ⟨h1, h2, h3,
    registry_invariant_preserved.2.2.2 _ ⟨1, 7, 101⟩ _ [Event.offline 1] h1 h2 h3⟩

/-! ### Queue effects of `Context::kick` -/

theorem sendMsg_eq (live : Sender → Bool) (q : QueueState) (s₀ s : Sender) (msg : Message) :
    sendMsg live q s₀ msg s =
      q s ++ (if live s₀ = true ∧ s = s₀ then [msg] else []) := by
  unfold sendMsg
  by_cases hl : live s₀ = true
  · simp only [hl, if_true]
    by_cases hs : s = s₀
    · simp [hs]
    · simp [hs]
  · simp [hl]

theorem kickSends_append {conn_ids : List ConnID} {conns : List (ConnID × Sender)}
    {live : Sender → Bool} : ∀ {q q' : QueueState},
    conn_ids.foldlM (fun acc conn_id =>
      match mlookup conns conn_id with
      | none => none
      | some s => some (sendMsg live acc s (Message.close_with 4000 "kick"))) q = some q' →
    ∀ s, ∃ k, q' s = q s ++ List.replicate k (Message.close_with 4000 "kick") := by
  induction conn_ids with
  | nil =>
    intro q q' h s
    simp [List.foldlM_nil] at h
    subst h
    exact ⟨0, by simp⟩
  | cons c rest ih =>
    intro q q' h s
    cases hfc : mlookup conns c with
    | none => simp [List.foldlM_cons, hfc] at h
    | some s₀ =>
      simp only [List.foldlM_cons, hfc, Option.bind_eq_bind, Option.some_bind] at h
      rcases ih h s with ⟨k, hk⟩
      rw [hk, sendMsg_eq]
      by_cases hcase : live s₀ = true ∧ s = s₀
      · refine ⟨1 + k, ?_⟩
        simp [hcase, List.replicate_add, List.append_assoc]
      · refine ⟨k, ?_⟩
        simp [hcase]

theorem kickGroup_append {g : Group} {u : UserID} {live : Sender → Bool}
    {q q' : QueueState} (h : kickGroup g u live q = some q') :
    ∀ s, ∃ k, q' s = q s ++ List.replicate k (Message.close_with 4000 "kick") := by
  unfold kickGroup at h
  cases hl : mlookup g.online_users u with
  | none =>
    rw [hl] at h
    injection h with h
    subst h
    exact fun s => ⟨0, by simp⟩
  | some l =>
    rw [hl] at h
    exact kickSends_append h

theorem kick_append {m : GroupMap} {u : UserID} {live : Sender → Bool} :
    ∀ {q q' : QueueState}, Context.kick m u live q = some q' →
    ∀ s, ∃ k, q' s = q s ++ List.replicate k (Message.close_with 4000 "kick") := by
  induction m with
  | nil =>
    intro q q' h s
    simp [Context.kick, List.foldlM_nil] at h
    subst h
    exact ⟨0, by simp⟩
  | cons p rest ih =>
    intro q q' h s
    rw [Context.kick, List.foldlM_cons] at h
    cases hkg : kickGroup p.2 u live q with
    | none =>
      rw [hkg] at h
      simp at h
    | some q₁ =>
      rw [hkg] at h
      simp only [Option.bind_eq_bind, Option.some_bind] at h
      rcases ih h s with ⟨k₂, hk₂⟩
      rcases kickGroup_append hkg s with ⟨k₁, hk₁⟩
      refine ⟨k₁ + k₂, ?_⟩
      rw [hk₂, hk₁, List.append_assoc, List.replicate_add]

/-- C10: `Context::kick` never changes the group map — it runs under a read
guard; every group, with its channels, connections and online users, is
exactly as before, and its only effect is appending close directives to
existing outbound queues. -/
theorem kick_frame (st : CtxState) (user_id : UserID) (live : Sender → Bool)
    (st' : CtxState) (h : Context.kickCtx st user_id live = some st') :
    st'.groups = st.groups ∧
    (∀ gid, mlookup st'.groups gid = mlookup st.groups gid) ∧
    (∀ gid g, mlookup st'.groups gid = some g →
      ∃ g₀, mlookup st.groups gid = some g₀ ∧ g.channels = g₀.channels ∧
        g.connections = g₀.connections ∧ g.online_users = g₀.online_users) ∧
    (∀ s, ∃ k, st'.queues s =
      st.queues s ++ List.replicate k (Message.close_with 4000 "kick")) := by
  unfold Context.kickCtx at h
  cases hk : Context.kick st.groups user_id live st.queues with
  | none =>
    rw [hk] at h
    cases h
  | some q =>
    rw [hk] at h
    injection h with h
    subst h
    refine ⟨rfl, fun _ => rfl, ?_, kick_append hk⟩
    intro gid g hg
    exact ⟨g, hg, rfl, rfl, rfl⟩

/-- C10 witness: kicking a user whose queues are all dead completes and leaves
the state untouched. -/
theorem kick_frame_witness :
    Context.kickCtx
      ⟨[((7 : GroupID), Group.mk [] [(101, 5)] [(1, [101])])], fun _ => []⟩ 1
      (fun _ => false) =
      some ⟨[((7 : GroupID), Group.mk [] [(101, 5)] [(1, [101])])], fun _ => []⟩ ∧
    (⟨[((7 : GroupID), Group.mk [] [(101, 5)] [(1, [101])])], fun _ => []⟩ :
        CtxState).groups =
      (⟨[((7 : GroupID), Group.mk [] [(101, 5)] [(1, [101])])], fun _ => []⟩ :
        CtxState).groups ∧
    (∀ s, ∃ k,
      (⟨[((7 : GroupID), Group.mk [] [(101, 5)] [(1, [101])])], fun _ => []⟩ :
          CtxState).queues s =
        (⟨[((7 : GroupID), Group.mk [] [(101, 5)] [(1, [101])])], fun _ => []⟩ :
          CtxState).queues s ++ List.replicate k (Message.close_with 4000 "kick")) := by
  have h : Context.kickCtx
      ⟨[((7 : GroupID), Group.mk [] [(101, 5)] [(1, [101])])], fun _ => []⟩ 1
      (fun _ => false) =
      some ⟨[((7 : GroupID), Group.mk [] [(101, 5)] [(1, [101])])], fun _ => []⟩ := rfl
  have hmain := kick_frame
    ⟨[((7 : GroupID), Group.mk [] [(101, 5)] [(1, [101])])], fun _ => []⟩ 1
    (fun _ => false)
    ⟨[((7 : GroupID), Group.mk [] [(101, 5)] [(1, [101])])], fun _ => []⟩ h
  exact ⟨h, hmain.1, hmain.2.2.2⟩

/-! ### C6: exactly the kicked user's queues receive the close directive -/

theorem kickSends_spec {conn_ids : List ConnID} {conns : List (ConnID × Sender)}
    (live : Sender → Bool) : ∀ (q : QueueState),
    (∀ c ∈ conn_ids, (mlookup conns c).isSome = true) →
    ∃ q', conn_ids.foldlM (fun acc conn_id =>
        match mlookup conns conn_id with
        | none => none
        | some s => some (sendMsg live acc s (Message.close_with 4000 "kick"))) q =
          some q' ∧
      ∀ s, ∃ k, q' s = q s ++ List.replicate k (Message.close_with 4000 "kick") ∧
        (0 < k ↔ (live s = true ∧ ∃ c ∈ conn_ids, mlookup conns c = some s)) := by
  induction conn_ids with
  | nil =>
    intro q _
    refine ⟨q, by simp [List.foldlM_nil], fun s => ⟨0, by simp⟩⟩
  | cons c rest ih =>
    intro q hall
    have hc : (mlookup conns c).isSome = true := hall c (List.mem_cons_self c rest)
    rcases Option.isSome_iff_exists.mp hc with ⟨s₀, hs₀⟩
    have hrest : ∀ c' ∈ rest, (mlookup conns c').isSome = true :=
      fun c' hc' => hall c' (List.mem_cons_of_mem c hc')
    rcases ih (sendMsg live q s₀ (Message.close_with 4000 "kick")) hrest with
      ⟨q', hq', hspec⟩
    refine ⟨q', ?_, ?_⟩
    · simp [List.foldlM_cons, hs₀, hq']
    · intro s
      rcases hspec s with ⟨k, hk, hiff⟩
      rw [sendMsg_eq] at hk
      by_cases hcase : live s₀ = true ∧ s = s₀
      · refine ⟨1 + k, ?_, ?_⟩
        · rw [hk]
          simp [hcase, List.replicate_add, List.append_assoc]
        · constructor
          · intro _
            exact ⟨hcase.2 ▸ hcase.1, c, List.mem_cons_self c rest, hcase.2 ▸ hs₀⟩
          · intro _
            omega
      · refine ⟨k, ?_, ?_⟩
        · rw [hk]
          simp [hcase]
        · rw [hiff]
          constructor
          · rintro ⟨hlive, c', hc', hlu⟩
            exact ⟨hlive, c', List.mem_cons_of_mem c hc', hlu⟩
          · rintro ⟨hlive, c', hc', hlu⟩
            rcases List.mem_cons.mp hc' with hh | hh
            · subst hh
              rw [hs₀] at hlu
              injection hlu with hlu
              exact absurd ⟨hlu ▸ hlive, hlu.symm⟩ hcase
            · exact ⟨hlive, c', hh, hlu⟩

theorem kickGroup_spec {g : Group} {u : UserID} {live : Sender → Bool} {q : QueueState}
    (hconn : ∀ l, mlookup g.online_users u = some l →
      ∀ c ∈ l, (mlookup g.connections c).isSome = true) :
    ∃ q', kickGroup g u live q = some q' ∧
      ∀ s, ∃ k, q' s = q s ++ List.replicate k (Message.close_with 4000 "kick") ∧
        (0 < k ↔ (live s = true ∧ GroupTarget g u s)) := by
  cases hl : mlookup g.online_users u with
  | none =>
    refine ⟨q, by simp [kickGroup, hl], fun s => ⟨0, by simp, ?_⟩⟩
    simp only [Nat.lt_irrefl, false_iff]
    rintro ⟨-, l, c, hl', -⟩
    rw [hl] at hl'
    cases hl'
  | some l =>
    rcases kickSends_spec live q (hconn l hl) with ⟨q', hq', hspec⟩
    refine ⟨q', by simp [kickGroup, hl, hq'], ?_⟩
    intro s
    rcases hspec s with ⟨k, hk, hiff⟩
    refine ⟨k, hk, ?_⟩
    rw [hiff]
    constructor
    · rintro ⟨hlive, c, hcl, hlu⟩
      exact ⟨hlive, l, c, hl, hcl, hlu⟩
    · rintro ⟨hlive, l', c, hl', hcl, hlu⟩
      rw [hl] at hl'
      injection hl' with hl'
      subst hl'
      exact ⟨hlive, c, hcl, hlu⟩

theorem kickTarget_cons {gid : GroupID} {g : Group} {rest : GroupMap} {u : UserID}
    {s : Sender} (hnot : gid ∉ rest.map Prod.fst) :
    KickTarget ((gid, g) :: rest) u s ↔ GroupTarget g u s ∨ KickTarget rest u s := by
  constructor
  · rintro ⟨gid', g', hg', hgt⟩
    by_cases hgid : gid = gid'
    · subst hgid
      simp [mlookup] at hg'
      exact Or.inl (hg' ▸ hgt)
    · right
      refine ⟨gid', g', ?_, hgt⟩
      simpa [mlookup, hgid] using hg'
  · rintro (hgt | ⟨gid', g', hg', hgt⟩)
    · exact ⟨gid, g, by simp [mlookup], hgt⟩
    · have hne : gid ≠ gid' := by
        intro hh
        subst hh
        exact hnot (List.mem_map.mpr ⟨(gid, g'), mlookup_mem hg', rfl⟩)

      exact ⟨gid', g', by simpa [mlookup, hne] using hg', hgt⟩

theorem kick_spec_aux {m : GroupMap} {u : UserID} {live : Sender → Bool} :
    ∀ (q : QueueState), MapRInv m → WFMap m →
    ∃ q', Context.kick m u live q = some q' ∧
      ∀ s, ∃ k, q' s = q s ++ List.replicate k (Message.close_with 4000 "kick") ∧
        (0 < k ↔ (live s = true ∧ KickTarget m u s)) := by
  induction m with
  | nil =>
    intro q _ _
    refine ⟨q, by simp [Context.kick, List.foldlM_nil], fun s => ⟨0, by simp, ?_⟩⟩
    simp only [Nat.lt_irrefl, false_iff]
    rintro ⟨-, gid, g, hg, -⟩
    simp [mlookup] at hg
  | cons p rest ih =>
    intro q hinv hwf
    obtain ⟨gid, g⟩ := p
    have hself : mlookup ((gid, g) :: rest) gid = some g := by simp [mlookup]
    have hginv : g.RInv := hinv gid g hself
    have hnot : gid ∉ rest.map Prod.fst := (List.nodup_cons.mp hwf).1
    have hrest_inv : MapRInv rest := by
      intro gid' g' hg'
      have hne : gid ≠ gid' := by
        intro hh
        subst hh
        exact hnot (List.mem_map.mpr ⟨(gid, g'), mlookup_mem hg', rfl⟩)
      exact hinv gid' g' (by simpa [mlookup, hne] using hg')
    have hwf_rest : WFMap rest := (List.nodup_cons.mp hwf).2
    rcases kickGroup_spec (fun l hl c hcl => (hginv.2 u l hl).2 c hcl) with
      ⟨q₁, hq₁, hspec₁⟩
    rcases ih q₁ hrest_inv hwf_rest with ⟨q', hq', hspec₂⟩
    refine ⟨q', ?_, ?_⟩
    · rw [Context.kick, List.foldlM_cons]
      have hstep : kickGroup ((gid, g) : GroupID × Group).2 u live q = some q₁ := hq₁
      rw [hstep]
      simp only [Option.bind_eq_bind, Option.some_bind]
      unfold Context.kick at hq'
      exact hq'
    · intro s
      rcases hspec₁ s with ⟨k₁, hk₁, hiff₁⟩
      rcases hspec₂ s with ⟨k₂, hk₂, hiff₂⟩
      refine ⟨k₁ + k₂, by rw [hk₂, hk₁, List.append_assoc, List.replicate_add], ?_⟩
      rw [kickTarget_cons hnot]
      constructor
      · intro hpos
        have : 0 < k₁ ∨ 0 < k₂ := by omega
        rcases this with hp | hp
        · rcases hiff₁.mp hp with ⟨hlive, hgt⟩
          exact ⟨hlive, Or.inl hgt⟩
        · rcases hiff₂.mp hp with ⟨hlive, hkt⟩
          exact ⟨hlive, Or.inr hkt⟩
      · rintro ⟨hlive, hgt | hkt⟩
        · have := hiff₁.mpr ⟨hlive, hgt⟩
          omega
        · have := hiff₂.mpr ⟨hlive, hkt⟩
          omega

/-- C6: under the registry invariant, `broadcast_kick(user_id)` completes
(dead-queue send failures are swallowed), appends the close directive with
code 4000 and reason "kick" at least once to the queue of every live handle
registered for that user in some group's `online_users`, and leaves every
other queue — and every dead queue — unchanged (queues only ever grow by
copies of that close directive). -/
theorem broadcast_kick_spec (m : GroupMap) (u : UserID) (live : Sender → Bool)
    (q : QueueState) (hinv : MapRInv m) (hwf : WFMap m) :
    ∃ q', Context.kick m u live q = some q' ∧
      ∀ s, ∃ k, q' s = q s ++ List.replicate k (Message.close_with 4000 "kick") ∧
        (0 < k ↔ (live s = true ∧ KickTarget m u s)) :=
  kick_spec_aux q hinv hwf

/-- C6 witness: user 1 with two connections in group 7 and one in group 8,
alongside another user, with all queues live. -/
theorem broadcast_kick_spec_witness :
    MapRInv [((7 : GroupID), Group.mk [] [(101, 5), (102, 6), (11, 8)] [(1, [101, 102]), (2, [11])]),
             ((8 : GroupID), Group.mk [] [(103, 9)] [(1, [103])])] ∧
    WFMap [((7 : GroupID), Group.mk [] [(101, 5), (102, 6), (11, 8)] [(1, [101, 102]), (2, [11])]),
           ((8 : GroupID), Group.mk [] [(103, 9)] [(1, [103])])] ∧
    (∃ q', Context.kick
        [((7 : GroupID), Group.mk [] [(101, 5), (102, 6), (11, 8)] [(1, [101, 102]), (2, [11])]),
         ((8 : GroupID), Group.mk [] [(103, 9)] [(1, [103])])] 1 (fun _ => true)
        (fun _ => []) = some q' ∧
      ∀ s, ∃ k, q' s = (fun _ => ([] : List Message)) s ++
          List.replicate k (Message.close_with 4000 "kick") ∧
        (0 < k ↔ ((fun _ => true) s = true ∧ KickTarget
          [((7 : GroupID), Group.mk [] [(101, 5), (102, 6), (11, 8)] [(1, [101, 102]), (2, [11])]),
           ((8 : GroupID), Group.mk [] [(103, 9)] [(1, [103])])] 1 s))) := by
  have h1 : MapRInv
      [((7 : GroupID), Group.mk [] [(101, 5), (102, 6), (11, 8)] [(1, [101, 102]), (2, [11])]),
       ((8 : GroupID), Group.mk [] [(103, 9)] [(1, [103])])] := mapRInv_of_b (by decide)
  have h2 : WFMap
      [((7 : GroupID), Group.mk [] [(101, 5), (102, 6), (11, 8)] [(1, [101, 102]), (2, [11])]),
       ((8 : GroupID), Group.mk [] [(103, 9)] [(1, [103])])] := by
    unfold WFMap
    decide
  exact ⟨h1, h2, broadcast_kick_spec _ 1 (fun _ => true) (fun _ => []) h1 h2⟩

/-! ### C2: event counting over N connects then N disconnects -/

theorem runConnects_append {u : UserID} {gid : GroupID}
    (chres : Except Error (List Channel)) {a : ConnID} :
    ∀ (pairs : List (ConnID × Sender)) (m : GroupMap) (g : Group) (pre : List ConnID),
    mlookup m gid = some g →
    (mlookup g.connections a).isSome = true →
    mlookup g.online_users u = some pre →
    pre ≠ [] →
    a ∉ pairs.map Prod.fst →
    ∃ m' g', runConnects m u gid chres pairs = .ok (m', []) ∧
      mlookup m' gid = some g' ∧
      (mlookup g'.connections a).isSome = true ∧
      mlookup g'.online_users u = some (pre ++ pairs.map Prod.fst) := by
  intro pairs
  induction pairs with
  | nil =>
    intro m g pre hm ha hpre _ _
    exact ⟨m, g, by simp [runConnects], hm, ha, by simpa using hpre⟩
  | cons p rest ih =>
    intro m g pre hm ha hpre hprene ha'
    obtain ⟨c, tx⟩ := p
    have hac : a ≠ c := by
      intro hh
      exact ha' (by simp [hh])
    have harest : a ∉ rest.map Prod.fst := fun hh => ha' (by simp [hh])
    have hginsert : g.insert_connection ⟨u, gid, c⟩ tx =
        ({ g with
            online_users := minsert g.online_users u (pre ++ [c])
            connections := minsert g.connections c tx }, []) := by
      simp [Group.insert_connection, hpre, hprene]
    have hstep : Context.insert_connection m ⟨u, gid, c⟩ tx chres =
        .ok (minsert m gid ({ g with
            online_users := minsert g.online_users u (pre ++ [c])
            connections := minsert g.connections c tx }), []) := by
      simp [Context.insert_connection, hm, hginsert]
    have hg₁a : (mlookup (minsert g.connections c tx) a).isSome = true :=
      mlookup_minsert_isSome _ _ _ _ ha
    rcases ih (minsert m gid ({ g with
        online_users := minsert g.online_users u (pre ++ [c])
        connections := minsert g.connections c tx }))
      ({ g with
          online_users := minsert g.online_users u (pre ++ [c])
          connections := minsert g.connections c tx })
      (pre ++ [c]) (mlookup_minsert_self _ _ _) hg₁a (mlookup_minsert_self _ _ _)
      (by simp) harest with ⟨m', g', hrun, hm', ha'', hentry⟩
    refine ⟨m', g', ?_, hm', ha'', ?_⟩
    · simp only [runConnects, hstep, hrun]
      simp
    · simpa [List.append_assoc] using hentry

theorem runConnects_events {u : UserID} {gid : GroupID}
    (chres : Except Error (List Channel)) {a : ConnID}
    (pairs : List (ConnID × Sender)) (m : GroupMap) (g : Group)
    (hm : mlookup m gid = some g)
    (ha : (mlookup g.connections a).isSome = true)
    (hu : mlookup g.online_users u = none)
    (hane : a ∉ pairs.map Prod.fst)
    (hne : pairs ≠ []) :
    ∃ m' g', runConnects m u gid chres pairs = .ok (m', [Event.online u]) ∧
      mlookup m' gid = some g' ∧
      (mlookup g'.connections a).isSome = true ∧
      mlookup g'.online_users u = some (pairs.map Prod.fst) := by
  match pairs with
  | [] => exact absurd rfl hne
  | (c, tx) :: rest =>
    have hac : a ≠ c := by
      intro hh
      exact hane (by simp [hh])
    have harest : a ∉ rest.map Prod.fst := fun hh => hane (by simp [hh])
    have hginsert : g.insert_connection ⟨u, gid, c⟩ tx =
        ({ g with
            online_users := minsert g.online_users u [c]
            connections := minsert g.connections c tx }, [Event.online u]) := by
      simp [Group.insert_connection, hu, Group.send_user_online]
    have hstep : Context.insert_connection m ⟨u, gid, c⟩ tx chres =
        .ok (minsert m gid ({ g with
            online_users := minsert g.online_users u [c]
            connections := minsert g.connections c tx }), [Event.online u]) := by
      simp [Context.insert_connection, hm, hginsert]
    have hg₁a : (mlookup (minsert g.connections c tx) a).isSome = true :=
      mlookup_minsert_isSome _ _ _ _ ha
    rcases runConnects_append chres rest
      (minsert m gid ({ g with
          online_users := minsert g.online_users u [c]
          connections := minsert g.connections c tx }))
      ({ g with
          online_users := minsert g.online_users u [c]
          connections := minsert g.connections c tx })
      [c] (mlookup_minsert_self _ _ _) hg₁a (mlookup_minsert_self _ _ _)
      (by simp) harest with ⟨m', g', hrun, hm', ha'', hentry⟩
    refine ⟨m', g', ?_, hm', ha'', ?_⟩
    · simp only [runConnects, hstep, hrun]
      simp
    · simpa using hentry

theorem runDisconnects_events {u : UserID} {gid : GroupID} {a : ConnID} :
    ∀ (rs : List ConnID) (m : GroupMap) (g : Group) (l : List ConnID),
    mlookup m gid = some g →
    (mlookup g.connections a).isSome = true →
    a ∉ rs →
    mlookup g.online_users u = some l →
    l.Perm rs →
    rs ≠ [] →
    ∃ m', runDisconnects m u gid rs = some (m', [Event.offline u]) := by
  intro rs
  induction rs with
  | nil => exact fun m g l _ _ _ _ _ hne => absurd rfl hne
  | cons c rest ih =>
    intro m g l hm ha har hl hperm _
    have hac : a ≠ c := by
      intro hh
      exact har (by simp [hh])
    have harest : a ∉ rest := fun hh => har (List.mem_cons_of_mem c hh)
    have hcl : c ∈ l := hperm.mem_iff.mpr (List.mem_cons_self c rest)
    have haE : (mlookup (merase g.connections c) a).isSome = true := by
      rw [mlookup_merase_ne _ (Ne.symm hac)]
      exact ha
    have hE : (merase g.connections c).isEmpty = false := mlookup_isEmpty_false haE
    cases hrest : rest with
    | nil =>
      subst hrest
      have hlc : l = [c] := List.perm_singleton.mp hperm
      subst hlc
      have hrem := @Group.remove_connection_last g ⟨u, gid, c⟩ [c] hE hl rfl
      have hctx : Context.remove_connection m ⟨u, gid, c⟩ =
          some (minsert m gid ({ g with
            connections := merase g.connections c
            online_users := merase g.online_users u }), [Event.offline u]) := by
        simp [Context.remove_connection, hm, hrem]
      refine ⟨minsert m gid ({ g with
        connections := merase g.connections c
        online_users := merase g.online_users u }), ?_⟩
      simp only [runDisconnects, hctx]
      simp [runDisconnects]
    | cons r rest' =>
      subst hrest
      have hlen : ¬ l.length = 1 := by
        have := hperm.length_eq
        simp at this
        omega
      rcases Option.isSome_iff_exists.mp (positionOf_isSome hcl) with ⟨i, hi⟩
      have hrem := @Group.remove_connection_swap g ⟨u, gid, c⟩ l i hE hl hlen hi
      have hperm' : (swapRemove l i).Perm (r :: rest') := by
        have h₁ : (swapRemove l i).Perm (l.erase c) := swapRemove_perm_erase hi
        have h₂ : (l.erase c).Perm ((c :: r :: rest').erase c) := hperm.erase c
        rw [List.erase_cons_head] at h₂
        exact h₁.trans h₂
      rcases ih (minsert m gid ({ g with
            connections := merase g.connections c
            online_users := minsert g.online_users u (swapRemove l i) }))
          ({ g with
              connections := merase g.connections c
              online_users := minsert g.online_users u (swapRemove l i) })
          (swapRemove l i) (mlookup_minsert_self _ _ _) haE harest
          (mlookup_minsert_self _ _ _) hperm' (by simp) with ⟨m', hrun⟩
      have hctx : Context.remove_connection m ⟨u, gid, c⟩ =
          some (minsert m gid ({ g with
            connections := merase g.connections c
            online_users := minsert g.online_users u (swapRemove l i) }), []) := by
        simp [Context.remove_connection, hm, hrem]
      refine ⟨m', ?_⟩
      have hunfold : runDisconnects m u gid (c :: r :: rest') =
          (match Context.remove_connection m ⟨u, gid, c⟩ with
          | none => none
          | some (m₁, events) =>
              match runDisconnects m₁ u gid (r :: rest') with
              | none => none
              | some (m₂, events') => some (m₂, events ++ events')) := rfl
      rw [hunfold]
      simp only [hctx, hrun]
      simp

/-- C2 (amended): for every N ≥ 1, if the group already exists and holds a
connection of another user throughout (so the group is neither created by the
user's first connect nor torn down by their last disconnect), then a user
connecting N times and then disconnecting all N connections — the
disconnections in any order — produces exactly one "user online" event (on
the first connect) and exactly one "user offline" event (on the last
disconnect).  When instead the first connect creates the group, no online
event is emitted, and when the last disconnect empties the group, no offline
event is emitted (see the counterexample). -/
theorem event_counting (m : GroupMap) (g : Group) (u : UserID) (gid : GroupID)
    (a : ConnID) (chres : Except Error (List Channel))
    (pairs : List (ConnID × Sender)) (rs : List ConnID)
    (hm : mlookup m gid = some g)
    (ha : (mlookup g.connections a).isSome = true)
    (hu : mlookup g.online_users u = none)
    (hp : pairs ≠ [])
    (hra : a ∉ pairs.map Prod.fst)
    (hper : rs.Perm (pairs.map Prod.fst)) :
    ∃ m₁ m₂, runConnects m u gid chres pairs = .ok (m₁, [Event.online u]) ∧
      runDisconnects m₁ u gid rs = some (m₂, [Event.offline u]) := by
  rcases runConnects_events chres pairs m g hm ha hu hra hp with
    ⟨m₁, g₁, hrun₁, hm₁, ha₁, hentry₁⟩
  have hanotrs : a ∉ rs := fun hh => hra (hper.mem_iff.mp hh)
  have hrsne : rs ≠ [] := by
    intro hh
    subst hh
    have hlen := hper.length_eq
    cases pairs with
    | nil => exact hp rfl
    | cons q qs => simp at hlen
  rcases runDisconnects_events rs m₁ g₁ (pairs.map Prod.fst) hm₁ ha₁ hanotrs hentry₁
    hper.symm hrsne with ⟨m₂, hrun₂⟩
  exact ⟨m₁, m₂, hrun₁, hrun₂⟩

/-- C2 witness: two connects then two disconnects in swapped order, in a
group kept alive by another user's connection. -/
theorem event_counting_witness :
    mlookup [((7 : GroupID), Group.mk [] [(11, 8)] [(2, [11])])] (7 : GroupID) =
      some (Group.mk [] [(11, 8)] [(2, [11])]) ∧
    (mlookup (Group.mk [] [(11, 8)] [(2, [11])]).connections (11 : ConnID)).isSome = true ∧
    mlookup (Group.mk [] [(11, 8)] [(2, [11])]).online_users (3 : UserID) = none ∧
    ([((101 : ConnID), (5 : Sender)), (102, 6)] : List (ConnID × Sender)) ≠ [] ∧
    (11 : ConnID) ∉ ([((101 : ConnID), (5 : Sender)), (102, 6)].map Prod.fst) ∧
    ([102, 101] : List ConnID).Perm ([((101 : ConnID), (5 : Sender)), (102, 6)].map Prod.fst) ∧
    (∃ m₁ m₂, runConnects [((7 : GroupID), Group.mk [] [(11, 8)] [(2, [11])])] 3 7 (.ok [])
        [(101, 5), (102, 6)] = .ok (m₁, [Event.online 3]) ∧
      runDisconnects m₁ 3 7 [102, 101] = some (m₂, [Event.offline 3])) :=
  ⟨rfl, rfl, rfl, by decide, by decide, by decide,
    event_counting [((7 : GroupID), Group.mk [] [(11, 8)] [(2, [11])])]
      (Group.mk [] [(11, 8)] [(2, [11])]) 3 7 11 (.ok []) [(101, 5), (102, 6)] [102, 101]
      rfl rfl rfl (by decide) (by decide) (by decide)⟩

/-- C2 counterexample: user 3 connects once to group 7 on an empty map (the
connect creates the group) and then disconnects (the disconnect deletes the
group): zero online events and zero offline events are emitted, not exactly
one of each. -/
theorem event_counting_counterexample :
    runConnects ([] : GroupMap) 3 7 (.ok []) [(101, 5)] =
      .ok ([((7 : GroupID), Group.mk [] [(101, 5)] [(3, [101])])], []) ∧
    runDisconnects [((7 : GroupID), Group.mk [] [(101, 5)] [(3, [101])])] 3 7 [101] =
      some ([], []) :=
  ⟨rfl, rfl⟩

end Chat
